import Mathlib

/-
Verification of the GAIA CANSAT flight-data pipeline (script.js) against its
natural-language specification.

The JavaScript pipeline is shallowly embedded:
  * a JS number is `JSNum` (an exact rational, NaN, or a signed infinity);
  * a CSV cell value is `JSVal` (a string, as produced by the CSV parser, or a
    number, as written back by the cleaning step);
  * a row object is an association list from column name to cell value;
  * the mutable row objects shared between `originalData` and the derived
    arrays are modelled as a heap `List Row`, with the datasets holding
    indices (references) into it, so that in-place mutation of a shared row
    is observable exactly as in the source.
-/

set_option maxHeartbeats 1000000

namespace Gaia

/-- A JavaScript number: an exact rational (idealising the finite doubles that
occur in the pipeline), NaN, or a signed infinity. -/
inductive JSNum where
  | fin (q : ℚ)
  | nan
  | inf
  | ninf
deriving DecidableEq

/-- A CSV cell value: a raw string from the parser, or a number written by the
cleaning step's altitude correction. -/
inductive JSVal where
  | str (s : String)
  | num (x : JSNum)
deriving DecidableEq

/-- Truthiness of a JS number (`NaN` and `0` are falsy). -/
def JSNum.toBool : JSNum → Bool
  | .fin q => q ≠ 0
  | .nan => false
  | .inf => true
  | .ninf => true

/-- isNaN on a JS number. -/
def JSNum.isNaN : JSNum → Bool
  | .nan => true
  | _ => false

/-- The comparison `x < b` for a rational bound `b` (false on NaN). -/
def JSNum.ltQ : JSNum → ℚ → Bool
  | .fin q, b => q < b
  | .nan, _ => false
  | .inf, _ => false
  | .ninf, _ => true

/-- The comparison `x > b` for a rational bound `b` (false on NaN). -/
def JSNum.gtQ : JSNum → ℚ → Bool
  | .fin q, b => b < q
  | .nan, _ => false
  | .inf, _ => true
  | .ninf, _ => false

/-- The comparison `x >= b` for a rational bound `b` (false on NaN). -/
def JSNum.geQ : JSNum → ℚ → Bool
  | .fin q, b => b ≤ q
  | .nan, _ => false
  | .inf, _ => true
  | .ninf, _ => false

/-- Rational subtraction written through `mkRat`, so that the kernel can
evaluate it on literals (the library subtraction is irreducible).  It agrees
with the ordinary subtraction on `ℚ`, see `qsub_eq`. -/
def qsub (a b : ℚ) : ℚ :=
  mkRat (a.num * b.den - b.num * a.den) (a.den * b.den)

theorem qsub_eq (a b : ℚ) : qsub a b = a - b :=
  (Rat.sub_def' a b).symm

/-- JS subtraction, with the IEEE special-value rules. -/
def JSNum.sub : JSNum → JSNum → JSNum
  | .fin a, .fin b => .fin (qsub a b)
  | .nan, _ => .nan
  | _, .nan => .nan
  | .inf, .inf => .nan
  | .inf, _ => .inf
  | .ninf, .ninf => .nan
  | .ninf, _ => .ninf
  | .fin _, .inf => .ninf
  | .fin _, .ninf => .inf

/-- The JS idiom `x || d` with a numeric default `d`: yields `d` when `x` is
falsy (NaN or 0). -/
def jsOr (x : JSNum) (d : ℚ) : JSNum :=
  if x.toBool then x else .fin d

/-- Whitespace skipped by `parseFloat`. -/
def isWS (c : Char) : Bool :=
  c = ' ' || c = '\t' || c = '\n' || c = '\r' || c = '\x0b' || c = '\x0c'

/-- Decimal digit test. -/
def isDigit (c : Char) : Bool :=
  '0' ≤ c && c ≤ '9'

/-- Value of a decimal digit string. -/
def digitsVal (l : List Char) : ℕ :=
  l.foldl (fun a c => 10 * a + (c.toNat - 48)) 0

/-- Powers of ten on naturals, structurally recursive so that the kernel can
evaluate them. -/
def tenPow : ℕ → ℕ
  | 0 => 1
  | n + 1 => 10 * tenPow n

/-- The rational value `±(ip.fp) * 10 ^ exp` of a signed decimal mantissa
given by its integer digits `ip`, fraction digits `fp` and exponent `exp`,
built from integer arithmetic and `mkRat` so the kernel can evaluate it. -/
def decValue (neg : Bool) (ip fp : List Char) (exp : ℤ) : ℚ :=
  let m : ℤ := Int.ofNat (digitsVal ip * tenPow fp.length + digitsVal fp)
  let n : ℤ := if neg then -m else m
  match exp with
  | .ofNat e => mkRat (n * Int.ofNat (tenPow e)) (tenPow fp.length)
  | .negSucc e => mkRat n (tenPow fp.length * tenPow (e + 1))

/-- Core of `parseFloat` after whitespace and sign have been consumed:
an optional integer part, an optional fraction, an optional exponent.
Returns `none` when no digits are present at all (JS yields NaN). -/
def parseMantissa (neg : Bool) (cs : List Char) : Option JSNum :=
  let intPart := cs.takeWhile isDigit
  let cs1 := cs.dropWhile isDigit
  let fracPair : List Char × List Char :=
    match cs1 with
    | '.' :: rest => (rest.takeWhile isDigit, rest.dropWhile isDigit)
    | _ => ([], cs1)
  let fracPart := fracPair.1
  let cs2 := fracPair.2
  if intPart = [] ∧ fracPart = [] then none
  else
    let exp : ℤ :=
      match cs2 with
      | 'e' :: rest =>
        let signedRest : ℤ × List Char :=
          match rest with
          | '-' :: r => (-1, r)
          | '+' :: r => (1, r)
          | _ => (1, rest)
        let ed := signedRest.2.takeWhile isDigit
        if ed = [] then 0 else signedRest.1 * Int.ofNat (digitsVal ed)
      | 'E' :: rest =>
        let signedRest : ℤ × List Char :=
          match rest with
          | '-' :: r => (-1, r)
          | '+' :: r => (1, r)
          | _ => (1, rest)
        let ed := signedRest.2.takeWhile isDigit
        if ed = [] then 0 else signedRest.1 * Int.ofNat (digitsVal ed)
      | _ => 0
    some (.fin (decValue neg intPart fracPart exp))

/-- JS `parseFloat` on a character list: skip leading whitespace, read an
optional sign, accept `Infinity`, else the longest numeric prefix; NaN when
nothing numeric is found.  Trailing garbage is ignored. -/
def parseFloatChars (cs : List Char) : JSNum :=
  let cs0 := cs.dropWhile isWS
  let signed : Bool × List Char :=
    match cs0 with
    | '-' :: rest => (true, rest)
    | '+' :: rest => (false, rest)
    | _ => (false, cs0)
  let neg := signed.1
  let cs1 := signed.2
  if cs1.take 8 = "Infinity".toList then
    if neg then .ninf else .inf
  else
    match parseMantissa neg cs1 with
    | none => .nan
    | some v => v

/-- JS `parseFloat` on a string. -/
def parseFloat (s : String) : JSNum :=
  parseFloatChars s.data

/-- The JS `parseFloat` applied to a cell value: numbers pass through (JS stringifies
and re-parses, the identity on the numbers this pipeline produces). -/
def parseFloatVal : JSVal → JSNum
  | .str s => parseFloat s
  | .num x => x

/-- The JS `parseFloat` applied to a possibly-absent cell (`parseFloat(undefined)` is
NaN). -/
def parseFloatOpt : Option JSVal → JSNum
  | none => .nan
  | some v => parseFloatVal v

example : parseFloat "600" = .fin 600 := by decide
example : parseFloat "571" = .fin 571 := by decide
example : parseFloat "-12.5" = .fin (mkRat (-25) 2) := by decide
example : parseFloat "abc" = .nan := by decide
example : parseFloat "" = .nan := by decide
example : parseFloat "Infinity" = .inf := by decide
example : parseFloat "1e2" = .fin 100 := by decide
example : parseFloat "  3.5x" = .fin (mkRat 7 2) := by decide
example : JSNum.sub (.fin 600) (.fin 571) = .fin 29 := by decide
example : jsOr (parseFloat "") 571 = .fin 571 := by decide

/-! Section: Rows, the row heap, and the Cleaning Engine (`cleanData`) -/

/-- A row object: an association list from column name to cell value, in
property insertion order.  Lookup and update follow JS object semantics
(first matching key). -/
def Row := List (String × JSVal)

instance : DecidableEq Row := by
  unfold Row
  infer_instance

/-- Property read `row[k]`: `none` models `undefined`. -/
def Row.get : Row → String → Option JSVal
  | [], _ => none
  | (k', v') :: rest, k => if k' = k then some v' else Row.get rest k

/-- Property write `row[k] = v`: replaces the value of an existing key in
place, otherwise appends the new property. -/
def Row.set : Row → String → JSVal → Row
  | [], k, v => [(k, v)]
  | (k', v') :: rest, k, v =>
    if k' = k then (k, v) :: rest else (k', v') :: Row.set rest k v

/-- The heap of row objects produced by the CSV parse; datasets hold indices
(references) into it.  Reading a dangling reference yields the empty object
(this never happens on the real data flow). -/
def rowOf (heap : List Row) (ref : ℕ) : Row :=
  heap.getD ref []

/-- The dedup key of a row: the raw `Tiempo_ms` cell (`none` = `undefined`),
compared exactly, as a JS `Map` key. -/
def timeKey (heap : List Row) (ref : ℕ) : Option JSVal :=
  (rowOf heap ref).get "Tiempo_ms"

/-- A duplicate-removal report entry: the `filter` callback index (the
position in the scanned array) and the raw time value; the source also stores
the constant reason string. -/
structure DupEntry where
  index : ℕ
  time : Option JSVal
deriving DecidableEq

/-- Step 1 of `cleanData`: `data.filter` keeping the first row per time key.
`pairs` carries `(index, ref)` in scan order; `seen` is the key set of the
`timeMap`.  Returns the kept `(index, ref)` list and the report entries in
scan order. -/
def dedupAux (heap : List Row) : List (ℕ × ℕ) → List (Option JSVal) →
    List (ℕ × ℕ) × List DupEntry
  | [], _ => ([], [])
  | (i, ref) :: rest, seen =>
    let t := timeKey heap ref
    if t ∈ seen then
      let r := dedupAux heap rest seen
      (r.1, ⟨i, t⟩ :: r.2)
    else
      let r := dedupAux heap rest (t :: seen)
      ((i, ref) :: r.1, r.2)

/-- The fixed table of physical ranges, in object-literal insertion order. -/
def physicalRanges : List (String × ℚ × ℚ) :=
  [("Temperatura_C", -50, 85),
   ("Presion_hPa", 300, 1100),
   ("Humedad_%", 0, 100),
   ("Accel_X_m_s2", -160, 160),
   ("Accel_Y_m_s2", -160, 160),
   ("Accel_Z_m_s2", -160, 160),
   ("Gyro_X_deg_s", -2000, 2000),
   ("Gyro_Y_deg_s", -2000, 2000),
   ("Gyro_Z_deg_s", -2000, 2000),
   ("Altitud_m", -500, 100000)]

/-- The reason recorded for an out-of-range row (the source renders it as a
message string; only its three-way shape is modelled). -/
inductive OutlierReason where
  | nonNumeric
  | tooLow
  | tooHigh
deriving DecidableEq

/-- A violation of the physical-range table: first violating column, parsed
value, bounds and reason. -/
structure Violation where
  column : String
  value : JSNum
  minRange : ℚ
  maxRange : ℚ
  reason : OutlierReason
deriving DecidableEq

/-- The `for (const [column, range] of Object.entries(physicalRanges))` loop
body: returns the first violation among the given range entries, short
circuiting, or `none` when the row passes. -/
def firstViolation (r : Row) : List (String × ℚ × ℚ) → Option Violation
  | [] => none
  | (col, lo, hi) :: rest =>
    match r.get col with
    | some cell =>
      let v := parseFloatVal cell
      if v.isNaN then some ⟨col, v, lo, hi, .nonNumeric⟩
      else if v.ltQ lo then some ⟨col, v, lo, hi, .tooLow⟩
      else if v.gtQ hi then some ⟨col, v, lo, hi, .tooHigh⟩
      else firstViolation r rest
    | none => firstViolation r rest

/-- Range check of one row against the whole table. -/
def checkRow (r : Row) : Option Violation :=
  firstViolation r physicalRanges

/-- An outlier-removal report entry: the `filter` callback index plus the
violation data, exactly the fields pushed by the source. -/
structure OutlierEntry where
  index : ℕ
  column : String
  value : JSNum
  minRange : ℚ
  maxRange : ℚ
  reason : OutlierReason
deriving DecidableEq

/-- Step 2 of `cleanData`: `data.filter` dropping rows with a range
violation; `pairs` carries `(index, ref)` where `index` is the callback index
in the post-deduplication array. -/
def rangeAux (heap : List Row) : List (ℕ × ℕ) → List (ℕ × ℕ) × List OutlierEntry
  | [] => ([], [])
  | (i, ref) :: rest =>
    let r := rangeAux heap rest
    match checkRow (rowOf heap ref) with
    | some v => (r.1, ⟨i, v.column, v.value, v.minRange, v.maxRange, v.reason⟩ :: r.2)
    | none => ((i, ref) :: r.1, r.2)

/-- Step 3 of `cleanData`: replace a present `Altitud_m` cell with the number
`parseFloat(cell) - baseAltitude` (in-place mutation of the row object). -/
def adjustAltitude (base : JSNum) (r : Row) : Row :=
  match r.get "Altitud_m" with
  | some cell => r.set "Altitud_m" (.num ((parseFloatVal cell).sub base))
  | none => r

/-- The `data.forEach` of step 3 over the surviving references, threaded
through the heap so that mutation of shared row objects is observable. -/
def adjustAll (base : JSNum) (heap : List Row) (refs : List ℕ) : List Row :=
  refs.foldl (fun h ref => h.set ref (adjustAltitude base (rowOf h ref))) heap

/-- The output state of `cleanData`: the heap after step 3, the surviving
references, the two report lists and the summary numbers. -/
structure CleaningResult where
  heap : List Row
  cleanedData : List ℕ
  duplicatesRemoved : List DupEntry
  outliersRemoved : List OutlierEntry
  originalCount : ℕ
  cleanedCount : ℕ
  baseAltitude : JSNum
deriving DecidableEq

/-- The intermediate `(index, ref)` list after duplicate removal. -/
def dedupPhase (heap : List Row) (originalData : List ℕ) :
    List (ℕ × ℕ) × List DupEntry :=
  dedupAux heap originalData.enum []

/-- The operation `cleanData(heap, originalData, baseAltitudeRaw)`: the cleaning pipeline of
the source — `parseFloat(input) || 571` for the base altitude, duplicate
removal by exact time key, physical-range filtering, then in-place altitude
baseline correction of the surviving rows.  `originalData` is the list of row
references of the original dataset; `data` starts as a shallow copy of it, so
step 3 mutates row objects shared with the original dataset. -/
def cleanData (heap : List Row) (originalData : List ℕ) (baseRaw : String) :
    CleaningResult :=
  let baseAltitude := jsOr (parseFloat baseRaw) 571
  let originalCount := originalData.length
  let d1 := dedupPhase heap originalData
  let d2 := rangeAux heap (d1.1.map (·.2)).enum
  let cleanedRefs := d2.1.map (·.2)
  let heap1 := adjustAll baseAltitude heap cleanedRefs
  { heap := heap1
    cleanedData := cleanedRefs
    duplicatesRemoved := d1.2
    outliersRemoved := d2.2
    originalCount := originalCount
    cleanedCount := cleanedRefs.length
    baseAltitude := baseAltitude }

/-! Section: Air Quality Classifier (`classifyAirQuality`, `generateQualityMetrics`,
`processAltitudeData`) -/

/-- The per-tier value lists built by `classifyAirQuality`, field order as in
the object literal of the source. -/
structure Classification where
  excellent : List JSNum
  good : List JSNum
  moderate : List JSNum
  poor : List JSNum
  veryPoor : List JSNum
deriving DecidableEq

/-- The classification object before any value is pushed. -/
def emptyClassification : Classification :=
  ⟨[], [], [], [], []⟩

/-- The `forEach` body of `classifyAirQuality`: the if/else-if cascade on
`value >= 300`, `>= 200`, `>= 100`, `>= 50`, with a final unconditional
`else` push into `veryPoor`. -/
def classifyStep (c : Classification) (v : JSNum) : Classification :=
  if v.geQ 300 then { c with excellent := c.excellent ++ [v] }
  else if v.geQ 200 then { c with good := c.good ++ [v] }
  else if v.geQ 100 then { c with moderate := c.moderate ++ [v] }
  else if v.geQ 50 then { c with poor := c.poor ++ [v] }
  else { c with veryPoor := c.veryPoor ++ [v] }

/-- The classifier `classifyAirQuality(resistanceData)` from the source. -/
def classifyAirQuality (resistanceData : List JSNum) : Classification :=
  resistanceData.foldl classifyStep emptyClassification

/-- The five quality tiers. -/
inductive Tier where
  | excellent
  | good
  | moderate
  | poor
  | veryPoor
deriving DecidableEq

/-- Member list of a tier. -/
def tierList (c : Classification) : Tier → List JSNum
  | .excellent => c.excellent
  | .good => c.good
  | .moderate => c.moderate
  | .poor => c.poor
  | .veryPoor => c.veryPoor

/-- Member count of a tier. -/
def tierCount (c : Classification) (t : Tier) : ℕ :=
  (tierList c t).length

/-- Position of a tier in `Object.keys` order of the classification object. -/
def tierIdx : Tier → ℕ
  | .excellent => 0
  | .good => 1
  | .moderate => 2
  | .poor => 3
  | .veryPoor => 4

/-- The concatenation of the five tier lists in key order. -/
def tiersConcat (c : Classification) : List JSNum :=
  c.excellent ++ c.good ++ c.moderate ++ c.poor ++ c.veryPoor

/-- Sum of the five tier sizes. -/
def tierSizesSum (c : Classification) : ℕ :=
  c.excellent.length + c.good.length + c.moderate.length +
    c.poor.length + c.veryPoor.length

/-- Number of finite values in a sequence (the quantity the specification
counts; NaN and the infinities are the non-finite values). -/
def countFinite (l : List JSNum) : ℕ :=
  (l.filter (fun v => match v with | .fin _ => true | _ => false)).length

/-- The expression `Object.keys(qualityAnalysis).reduce((a, b) => q[a].length > q[b].length
? a : b)` from `generateQualityMetrics`: a `reduce` without initial value over
the keys in insertion order. -/
def predominantQuality (c : Classification) : Tier :=
  [Tier.good, Tier.moderate, Tier.poor, Tier.veryPoor].foldl
    (fun a b => if tierCount c a > tierCount c b then a else b) Tier.excellent

/-- One point of the interval="all" quality chart data. -/
structure AltPoint where
  altitude : JSNum
  resistance : JSNum
deriving DecidableEq

/-- Column extraction used by the air-quality code paths:
`csvData.map(row => parseFloat(row[col])).filter(val => !isNaN(val))`. -/
def extractNums (rows : List Row) (col : String) : List JSNum :=
  (rows.map (fun r => parseFloatOpt (r.get col))).filter (fun v => !v.isNaN)

/-- The JS expression `altitudeData[index] || index`: the indexed element when
present and truthy (nonzero), else the index itself. -/
def jsOrIdx (o : Option JSNum) (i : ℕ) : JSNum :=
  match o with
  | some v => if v.toBool then v else .fin i
  | none => .fin i

/-- The `interval === 'all'` branch of `processAltitudeData`: pair each
resistance reading positionally with the NaN-filtered altitude sequence
(or a length-matched all-zero sequence when no `Altitud_m` header exists),
with the `|| index` fallback. -/
def processAltitudeDataAll (resistanceData : List JSNum)
    (csvHeaders : List String) (csvData : List Row) : List AltPoint :=
  let altitudeData :=
    if "Altitud_m" ∈ csvHeaders then extractNums csvData "Altitud_m"
    else List.replicate resistanceData.length (.fin 0)
  resistanceData.enum.map (fun p => ⟨jsOrIdx (altitudeData.get? p.1) p.1, p.2⟩)

/-! Section: Statistics Engine (`calculateStats`) -/

/-- The fields computed by `calculateStats`.  The source returns
`stdDev = Math.sqrt(variance)`; the variance is the field modelled here and
the square root is taken in the statements (`Real.sqrt` is not computable).
The readings that reach `calculateStats` have been filtered to numeric values
upstream and are idealised as exact rationals. -/
structure ColumnStats where
  min : ℚ
  max : ℚ
  mean : ℚ
  median : ℚ
  variance : ℚ

/-- The function `calculateStats(values)` from the source: sort an ascending copy, take
`sorted[0]`, `sorted[length-1]`, `sorted[floor(length/2)]`, the mean, and the
population variance (division by `n`). -/
def calculateStats (values : List ℚ) : ColumnStats :=
  let sorted := values.insertionSort (· ≤ ·)
  let sum := values.foldl (· + ·) 0
  let mean := sum / (values.length : ℚ)
  let variance :=
    (values.foldl (fun acc val => acc + (val - mean) ^ 2) 0) / (values.length : ℚ)
  { min := sorted.getD 0 0
    max := sorted.getD (sorted.length - 1) 0
    mean := mean
    median := sorted.getD (sorted.length / 2) 0
    variance := variance }

/-! Section: Counting lemmas for the cleaning pipeline -/

theorem dedupAux_length (heap : List Row) (pairs : List (ℕ × ℕ))
    (seen : List (Option JSVal)) :
    (dedupAux heap pairs seen).1.length + (dedupAux heap pairs seen).2.length
      = pairs.length := by
  induction pairs generalizing seen with
  | nil => simp [dedupAux]
  | cons p rest ih =>
    obtain ⟨i, ref⟩ := p
    simp only [dedupAux]
    split
    · have h := ih seen
      simp only [List.length_cons]
      omega
    · have h := ih (timeKey heap ref :: seen)
      simp only [List.length_cons]
      omega

theorem rangeAux_length (heap : List Row) (pairs : List (ℕ × ℕ)) :
    (rangeAux heap pairs).1.length + (rangeAux heap pairs).2.length
      = pairs.length := by
  induction pairs with
  | nil => simp [rangeAux]
  | cons p rest ih =>
    obtain ⟨i, ref⟩ := p
    simp only [rangeAux]
    split
    · simp only [List.length_cons]
      omega
    · simp only [List.length_cons]
      omega

/-- C1: for every heap, original dataset and base-altitude input, the number
of surviving rows plus the number of duplicate-removal entries plus the
number of outlier-removal entries equals the number of rows of the original
dataset; each removed row is reported exactly once, duplicates before range
outliers. -/
theorem cleanData_count_invariant (heap : List Row) (orig : List ℕ)
    (baseRaw : String) :
    (cleanData heap orig baseRaw).cleanedCount
      + (cleanData heap orig baseRaw).duplicatesRemoved.length
      + (cleanData heap orig baseRaw).outliersRemoved.length
      = orig.length := by
  have h1 := dedupAux_length heap orig.enum []
  have h2 := rangeAux_length heap ((dedupPhase heap orig).1.map (·.2)).enum
  simp only [cleanData, dedupPhase, List.length_map, List.enum_length] at *
  omega

/-- The four-row scenario dataset of the specification: one row object per
reference, with `Tiempo_ms = [0,100,100,200]` and
`Temperatura_C = [20,21,21,999]`. -/
def scenarioHeap : List Row :=
  [[("Tiempo_ms", .str "0"), ("Temperatura_C", .str "20")],
   [("Tiempo_ms", .str "100"), ("Temperatura_C", .str "21")],
   [("Tiempo_ms", .str "100"), ("Temperatura_C", .str "21")],
   [("Tiempo_ms", .str "200"), ("Temperatura_C", .str "999")]]

/-- C8: on the scenario dataset, duplicate removal drops exactly the row at
index 2 (the second `100` ms row; the first row per time value is kept), the
range filter then removes exactly one row, the one holding temperature 999
(above the inclusive bound 85 of `[-50, 85]`), and the cleaned count is 2
(references 0 and 1 survive). -/
theorem cleanData_scenario :
    (cleanData scenarioHeap [0, 1, 2, 3] "571").duplicatesRemoved
        = [⟨2, some (.str "100")⟩] ∧
      (cleanData scenarioHeap [0, 1, 2, 3] "571").outliersRemoved
        = [⟨2, "Temperatura_C", .fin 999, -50, 85, .tooHigh⟩] ∧
      (rowOf scenarioHeap 3).get "Temperatura_C" = some (.str "999") ∧
      (cleanData scenarioHeap [0, 1, 2, 3] "571").cleanedData = [0, 1] ∧
      (cleanData scenarioHeap [0, 1, 2, 3] "571").cleanedCount = 2 := by
  decide

/-- A one-row dataset whose altitude cell is the string `"600"`. -/
def mutHeap : List Row :=
  [[("Tiempo_ms", .str "0"), ("Altitud_m", .str "600")]]

/-- C2 fails on the code: `cleanData` copies only the array
(`[...originalData]`), not the row objects, and step 3 assigns
`row['Altitud_m'] = parseFloat(...) - baseAltitude` on those shared objects.
After cleaning with base 571, the original dataset's only row reads
`Altitud_m = 29` (a number) instead of the parsed-time value `"600"`; the
comment `Crear una copia de los datos originales` and the reset-to-original
feature show the decoupling was intended. -/
theorem cleanData_mutates_original_row :
    (rowOf mutHeap 0).get "Altitud_m" = some (.str "600") ∧
      (rowOf (cleanData mutHeap [0] "571").heap 0).get "Altitud_m"
        = some (.num (.fin 29)) ∧
      (rowOf (cleanData mutHeap [0] "571").heap 0).get "Altitud_m"
        ≠ (rowOf mutHeap 0).get "Altitud_m" := by
  decide

/-! Section: Classifier theorems -/

theorem tiersConcat_classifyStep (c : Classification) (v : JSNum) :
    (↑(tiersConcat (classifyStep c v)) : Multiset JSNum)
      = ↑(tiersConcat c) + ↑[v] := by
  obtain ⟨e, g, m, p, vp⟩ := c
  simp only [classifyStep]
  split_ifs <;>
    · simp only [tiersConcat, ← Multiset.coe_add, List.append_assoc,
        Multiset.cons_coe, ← Multiset.singleton_add]
      abel

theorem tiersConcat_foldl (l : List JSNum) (c : Classification) :
    (↑(tiersConcat (l.foldl classifyStep c)) : Multiset JSNum)
      = ↑(tiersConcat c) + ↑l := by
  induction l generalizing c with
  | nil => simp
  | cons v rest ih =>
    simp only [List.foldl_cons]
    rw [ih, tiersConcat_classifyStep]
    simp only [← Multiset.cons_coe, ← Multiset.singleton_add]
    abel

theorem tierSizesSum_eq_length (c : Classification) :
    tierSizesSum c = (tiersConcat c).length := by
  simp only [tierSizesSum, tiersConcat, List.length_append]

/-- C3 fails on the code: `classifyAirQuality` excludes nothing — the final
`else` puts the negative value -10 into `veryPoor`, and `Infinity >= 300`
puts the non-finite value +Infinity into `excellent`, so on `[Infinity]` the
tier sizes sum to 1 while the input holds 0 finite values. -/
theorem classify_counterexample :
    (classifyAirQuality [JSNum.fin (-10)]).veryPoor = [JSNum.fin (-10)] ∧
      (classifyAirQuality [JSNum.inf]).excellent = [JSNum.inf] ∧
      tierSizesSum (classifyAirQuality [JSNum.inf]) = 1 ∧
      countFinite [JSNum.inf] = 0 := by
  decide

/-- C3 amended: `classifyAirQuality` places every input value — finite or
not, negative or not — in exactly one of the five tiers (the multiset of all
tier members equals the multiset of inputs), so the sum of the five tier
sizes equals the input length, not the count of finite values. -/
theorem classify_partitions_all_values (l : List JSNum) :
    (↑(tiersConcat (classifyAirQuality l)) : Multiset JSNum) = ↑l ∧
      tierSizesSum (classifyAirQuality l) = l.length := by
  have h := tiersConcat_foldl l emptyClassification
  have he : tiersConcat emptyClassification = [] := rfl
  rw [he] at h
  simp only [classifyAirQuality]
  constructor
  · rw [h]
    simp
  · rw [tierSizesSum_eq_length]
    have := congrArg Multiset.card h
    simpa using this

/-- C4 fails on the code: on the specification's own scenario input all five
tier counts are 1, and the `reduce((a, b) => q[a].length > q[b].length ? a :
b)` with a strict comparison replaces the accumulator on every tie, so the
predominant tier is `veryPoor`, the last key, not `excellent`. -/
theorem predominant_tie_counterexample :
    tierCount (classifyAirQuality
        [JSNum.fin 350, .fin 250, .fin 150, .fin 75, .fin 10]) .excellent = 1 ∧
      tierCount (classifyAirQuality
        [JSNum.fin 350, .fin 250, .fin 150, .fin 75, .fin 10]) .good = 1 ∧
      tierCount (classifyAirQuality
        [JSNum.fin 350, .fin 250, .fin 150, .fin 75, .fin 10]) .moderate = 1 ∧
      tierCount (classifyAirQuality
        [JSNum.fin 350, .fin 250, .fin 150, .fin 75, .fin 10]) .poor = 1 ∧
      tierCount (classifyAirQuality
        [JSNum.fin 350, .fin 250, .fin 150, .fin 75, .fin 10]) .veryPoor = 1 ∧
      predominantQuality (classifyAirQuality
        [JSNum.fin 350, .fin 250, .fin 150, .fin 75, .fin 10]) = Tier.veryPoor ∧
      Tier.veryPoor ≠ Tier.excellent := by
  decide

/-- C4 amended: `predominantQuality` returns a tier of maximum member count,
and when several tiers share the maximum the LAST such tier in the fixed key
order (excellent, good, moderate, poor, veryPoor) is chosen — every tier
strictly after the result in that order has a strictly smaller count; with
all five counts equal the result is `veryPoor`. -/
theorem predominant_is_last_argmax (c : Classification) (t : Tier) :
    tierCount c t ≤ tierCount c (predominantQuality c) ∧
      (tierIdx (predominantQuality c) < tierIdx t →
        tierCount c t < tierCount c (predominantQuality c)) := by
  obtain ⟨e, g, m, p, vp⟩ := c
  cases t <;>
    · simp only [predominantQuality, List.foldl, gt_iff_lt]
      split_ifs <;> simp_all [tierCount, tierList, tierIdx] <;> omega

theorem predominant_is_last_argmax_witness :
    tierCount (classifyAirQuality [JSNum.fin 250]) .moderate
        ≤ tierCount (classifyAirQuality [JSNum.fin 250])
            (predominantQuality (classifyAirQuality [JSNum.fin 250])) ∧
      tierCount (classifyAirQuality [JSNum.fin 250]) .moderate
        < tierCount (classifyAirQuality [JSNum.fin 250])
            (predominantQuality (classifyAirQuality [JSNum.fin 250])) :=
  ⟨(predominant_is_last_argmax (classifyAirQuality [JSNum.fin 250]) .moderate).1,
   (predominant_is_last_argmax (classifyAirQuality [JSNum.fin 250]) .moderate).2
     (by decide)⟩

/-! Section: Aggregation (interval = "all") theorems -/

/-- A four-row dataset in which some resistance cells and some altitude cells
are non-numeric, exposing the positional misalignment of the two
independently NaN-filtered sequences. -/
def misRows : List Row :=
  [[("Resistencia_kOhms", .str "abc"), ("Altitud_m", .str "10")],
   [("Resistencia_kOhms", .str "200"), ("Altitud_m", .str "abc")],
   [("Resistencia_kOhms", .str "300"), ("Altitud_m", .str "7")],
   [("Resistencia_kOhms", .str "400"), ("Altitud_m", .str "abc")]]

/-- The header list of the misaligned dataset. -/
def misHeaders : List String :=
  ["Resistencia_kOhms", "Altitud_m"]

/-- C5 fails on the code: on a 4-row dataset the interval="all" path returns
3 pairs (one per numeric resistance reading, not per row); the resistance of
row 1 is paired with the altitude of row 0 (its own altitude cell is
non-numeric, and the altitude sequence is NaN-filtered separately, shifting
positions); and the last reading falls back to the ordinal index 2 even
though an altitude column exists. -/
theorem processAll_counterexample :
    misRows.length = 4 ∧
      "Altitud_m" ∈ misHeaders ∧
      extractNums misRows "Resistencia_kOhms" = [.fin 200, .fin 300, .fin 400] ∧
      processAltitudeDataAll (extractNums misRows "Resistencia_kOhms")
          misHeaders misRows
        = [⟨.fin 10, .fin 200⟩, ⟨.fin 7, .fin 300⟩, ⟨.fin 2, .fin 400⟩] ∧
      (processAltitudeDataAll (extractNums misRows "Resistencia_kOhms")
          misHeaders misRows).length ≠ misRows.length ∧
      (rowOf misRows 1).get "Altitud_m" = some (.str "abc") ∧
      (rowOf misRows 0).get "Altitud_m" = some (.str "10") := by
  decide

/-- C5 amended: the interval="all" path returns one pair per
numeric-parseable resistance reading (not per row), pairing positionally
against the separately NaN-filtered altitude sequence with an ordinal-index
fallback for missing or zero entries; when every row's resistance and
altitude cells are numeric and no altitude is zero the claimed behaviour
holds — n pairs in original row order, each resistance paired with its own
row's altitude. -/
theorem processAll_aligned (csvHeaders : List String) (rows : List Row)
    (hmem : "Altitud_m" ∈ csvHeaders)
    (hres : ∀ r ∈ rows, (parseFloatOpt (r.get "Resistencia_kOhms")).isNaN = false)
    (halt : ∀ r ∈ rows, (parseFloatOpt (r.get "Altitud_m")).isNaN = false)
    (htru : ∀ r ∈ rows, (parseFloatOpt (r.get "Altitud_m")).toBool = true) :
    processAltitudeDataAll (extractNums rows "Resistencia_kOhms") csvHeaders rows
      = rows.map (fun r => ⟨parseFloatOpt (r.get "Altitud_m"),
          parseFloatOpt (r.get "Resistencia_kOhms")⟩) := by
  have hresEq : extractNums rows "Resistencia_kOhms"
      = rows.map (fun r => parseFloatOpt (r.get "Resistencia_kOhms")) := by
    apply List.filter_eq_self.mpr
    intro v hv
    obtain ⟨r, hr, rfl⟩ := List.mem_map.mp hv
    simp [hres r hr]
  have haltEq : extractNums rows "Altitud_m"
      = rows.map (fun r => parseFloatOpt (r.get "Altitud_m")) := by
    apply List.filter_eq_self.mpr
    intro v hv
    obtain ⟨r, hr, rfl⟩ := List.mem_map.mp hv
    simp [halt r hr]
  simp only [processAltitudeDataAll, if_pos hmem, hresEq, haltEq]
  apply List.ext_getElem
  · simp
  · intro i h1 h2
    have hi : i < rows.length := by simpa using h2
    have henum : i < (rows.map
        (fun r => parseFloatOpt (r.get "Resistencia_kOhms"))).enum.length := by
      simpa using hi
    simp only [List.getElem_map, List.getElem_enum]
    have hget : (rows.map (fun r => parseFloatOpt (r.get "Altitud_m")))[i]?
        = some (parseFloatOpt (rows[i].get "Altitud_m")) := by
      simp [List.getElem?_map, List.getElem?_eq_getElem hi]
    simp only [jsOrIdx, List.get?_eq_getElem?, hget]
    rw [if_pos (htru rows[i] (List.getElem_mem hi))]

/-- Three all-numeric rows matching the specification's three-row aggregation
scenario. -/
def alignedRows : List Row :=
  [[("Resistencia_kOhms", .str "350"), ("Altitud_m", .str "600")],
   [("Resistencia_kOhms", .str "250"), ("Altitud_m", .str "550")],
   [("Resistencia_kOhms", .str "150"), ("Altitud_m", .str "500")]]

theorem processAll_aligned_witness :
    processAltitudeDataAll (extractNums alignedRows "Resistencia_kOhms")
        misHeaders alignedRows
      = alignedRows.map (fun r => ⟨parseFloatOpt (r.get "Altitud_m"),
          parseFloatOpt (r.get "Resistencia_kOhms")⟩) :=
  processAll_aligned misHeaders alignedRows (by decide) (by decide)
    (by decide) (by decide)

/-! Section: Outlier-entry index theorems -/

theorem rangeAux_outlier_sound (heap : List Row) (l : List ℕ) (k : ℕ) :
    ∀ e ∈ (rangeAux heap (l.enumFrom k)).2,
      ∃ j, ∃ hj : j < l.length, e.index = k + j ∧
        checkRow (rowOf heap (l.get ⟨j, hj⟩))
          = some ⟨e.column, e.value, e.minRange, e.maxRange, e.reason⟩ := by
  induction l generalizing k with
  | nil =>
    intro e he
    simp [rangeAux] at he
  | cons ref rest ih =>
    intro e he
    simp only [List.enumFrom] at he
    cases hcr : checkRow (rowOf heap ref) with
    | some v =>
      simp only [rangeAux, hcr] at he
      rcases List.mem_cons.mp he with rfl | hmem
      · refine ⟨0, by simp, by simp, ?_⟩
        simp [hcr]
      · obtain ⟨j, hj, hidx, hchk⟩ := ih (k + 1) e hmem
        refine ⟨j + 1, by simpa using Nat.succ_lt_succ hj, by omega, ?_⟩
        simpa using hchk
    | none =>
      simp only [rangeAux, hcr] at he
      obtain ⟨j, hj, hidx, hchk⟩ := ih (k + 1) e he
      refine ⟨j + 1, by simpa using Nat.succ_lt_succ hj, by omega, ?_⟩
      simpa using hchk

/-- C6 amended: every outlier-removal entry records the dropped row's
position in the intermediate, post-duplicate-removal sequence — a valid index
into that sequence whose row exhibits exactly the recorded violation (column,
value, bounds, reason) — and not, in general, the row's original index in the
dataset as parsed. -/
theorem outlier_index_in_postdedup (heap : List Row) (orig : List ℕ)
    (baseRaw : String) (e : OutlierEntry)
    (he : e ∈ (cleanData heap orig baseRaw).outliersRemoved) :
    ∃ hj : e.index < ((dedupPhase heap orig).1.map (·.2)).length,
      checkRow (rowOf heap
          (((dedupPhase heap orig).1.map (·.2)).get ⟨e.index, hj⟩))
        = some ⟨e.column, e.value, e.minRange, e.maxRange, e.reason⟩ := by
  have hrw : (cleanData heap orig baseRaw).outliersRemoved
      = (rangeAux heap (((dedupPhase heap orig).1.map (·.2)).enumFrom 0)).2 := rfl
  rw [hrw] at he
  obtain ⟨j, hj, hidx, hchk⟩ :=
    rangeAux_outlier_sound heap ((dedupPhase heap orig).1.map (·.2)) 0 e he
  have hidx0 : e.index = j := by omega
  subst hidx0
  exact ⟨hj, hchk⟩

/-- A dataset where a duplicate precedes the out-of-range row: rows 0 and 1
share time 0, row 2 holds the out-of-range temperature 999. -/
def shiftHeap : List Row :=
  [[("Tiempo_ms", .str "0")],
   [("Tiempo_ms", .str "0")],
   [("Tiempo_ms", .str "100"), ("Temperatura_C", .str "999")]]

/-- C6 fails on the code: the only row dropped by the range filter is the row
at original index 2 (the only one carrying `Temperatura_C`), yet its report
entry records index 1 — its position in the array left after duplicate
removal — because the second `filter` callback re-enumerates the intermediate
array. -/
theorem outlier_index_counterexample :
    (cleanData shiftHeap [0, 1, 2] "571").duplicatesRemoved
        = [⟨1, some (.str "0")⟩] ∧
      (cleanData shiftHeap [0, 1, 2] "571").outliersRemoved
        = [⟨1, "Temperatura_C", .fin 999, -50, 85, .tooHigh⟩] ∧
      (rowOf shiftHeap 2).get "Temperatura_C" = some (.str "999") ∧
      (rowOf shiftHeap 0).get "Temperatura_C" = none ∧
      (rowOf shiftHeap 1).get "Temperatura_C" = none ∧
      (1 : ℕ) ≠ 2 := by
  decide

theorem outlier_index_in_postdedup_witness :
    ∃ hj : (1 : ℕ) < ((dedupPhase shiftHeap [0, 1, 2]).1.map (·.2)).length,
      checkRow (rowOf shiftHeap
          (((dedupPhase shiftHeap [0, 1, 2]).1.map (·.2)).get ⟨1, hj⟩))
        = some ⟨"Temperatura_C", .fin 999, -50, 85, .tooHigh⟩ :=
  outlier_index_in_postdedup shiftHeap [0, 1, 2] "571"
    ⟨1, "Temperatura_C", .fin 999, -50, 85, .tooHigh⟩ (by decide)

/-! Section: Altitude-correction theorems -/

theorem Row.get_set_self (r : Row) (k : String) (v : JSVal) :
    (Row.set r k v).get k = some v := by
  induction r with
  | nil => simp [Row.set, Row.get]
  | cons p rest ih =>
    obtain ⟨k', v'⟩ := p
    by_cases h : k' = k
    · simp [Row.set, Row.get, h]
    · simp [Row.set, Row.get, h, ih]

theorem dedupAux_kept_keys (heap : List Row) (pairs : List (ℕ × ℕ))
    (seen : List (Option JSVal)) :
    (∀ p ∈ (dedupAux heap pairs seen).1, timeKey heap p.2 ∉ seen) ∧
      ((dedupAux heap pairs seen).1.map (fun p => timeKey heap p.2)).Nodup := by
  induction pairs generalizing seen with
  | nil => simp [dedupAux]
  | cons pr rest ih =>
    obtain ⟨i, ref⟩ := pr
    by_cases h : timeKey heap ref ∈ seen
    · simp only [dedupAux, if_pos h]
      exact ih seen
    · simp only [dedupAux, if_neg h]
      obtain ⟨h1, h2⟩ := ih (timeKey heap ref :: seen)
      constructor
      · intro p hp
        rcases List.mem_cons.mp hp with rfl | hmem
        · exact h
        · exact fun hc => h1 p hmem (List.mem_cons_of_mem _ hc)
      · simp only [List.map_cons, List.nodup_cons]
        refine ⟨?_, h2⟩
        intro hc
        obtain ⟨p, hp, hpe⟩ := List.mem_map.mp hc
        exact h1 p hp (by rw [hpe]; exact List.mem_cons_self _ _)

theorem dedup_kept_refs_nodup (heap : List Row) (pairs : List (ℕ × ℕ))
    (seen : List (Option JSVal)) :
    ((dedupAux heap pairs seen).1.map (·.2)).Nodup := by
  have h2 := (dedupAux_kept_keys heap pairs seen).2
  have hrw : (dedupAux heap pairs seen).1.map (fun p => timeKey heap p.2)
      = ((dedupAux heap pairs seen).1.map (·.2)).map (timeKey heap) := by
    simp [List.map_map]
  rw [hrw] at h2
  exact h2.of_map _

theorem rangeAux_kept_sublist (heap : List Row) (pairs : List (ℕ × ℕ)) :
    (rangeAux heap pairs).1.Sublist pairs := by
  induction pairs with
  | nil => simp [rangeAux]
  | cons pr rest ih =>
    obtain ⟨i, ref⟩ := pr
    simp only [rangeAux]
    cases hcr : checkRow (rowOf heap ref) with
    | some v => exact ih.cons _
    | none => exact ih.cons₂ _

theorem cleanedData_nodup (heap : List Row) (orig : List ℕ) (baseRaw : String) :
    (cleanData heap orig baseRaw).cleanedData.Nodup := by
  have hrefs : ((dedupPhase heap orig).1.map (·.2)).Nodup :=
    dedup_kept_refs_nodup heap orig.enum []
  have hsub :=
    (rangeAux_kept_sublist heap
      (((dedupPhase heap orig).1.map (·.2)).enum)).map (·.2)
  rw [List.enum_map_snd] at hsub
  exact hsub.nodup hrefs

theorem adjustAll_cons (base : JSNum) (heap : List Row) (r : ℕ)
    (rest : List ℕ) :
    adjustAll base heap (r :: rest)
      = adjustAll base (heap.set r (adjustAltitude base (rowOf heap r))) rest :=
  rfl

theorem adjustAll_rowOf_not_mem (base : JSNum) (heap : List Row)
    (refs : List ℕ) (ref : ℕ) (h : ref ∉ refs) :
    rowOf (adjustAll base heap refs) ref = rowOf heap ref := by
  induction refs generalizing heap with
  | nil => rfl
  | cons r rest ih =>
    have hne : r ≠ ref := fun hc => h (hc ▸ List.mem_cons_self _ _)
    have hrest : ref ∉ rest := fun hc => h (List.mem_cons_of_mem _ hc)
    rw [adjustAll_cons, ih _ hrest]
    simp only [rowOf, List.getD_eq_getElem?_getD, List.getElem?_set_ne hne]

theorem adjustAll_rowOf_mem (base : JSNum) (heap : List Row) (refs : List ℕ)
    (hnd : refs.Nodup) (ref : ℕ) (h : ref ∈ refs) :
    rowOf (adjustAll base heap refs) ref
      = adjustAltitude base (rowOf heap ref) := by
  induction refs generalizing heap with
  | nil => cases h
  | cons r rest ih =>
    rcases List.mem_cons.mp h with rfl | hmem
    · have hnotin : ref ∉ rest := (List.nodup_cons.mp hnd).1
      rw [adjustAll_cons, adjustAll_rowOf_not_mem base _ rest ref hnotin]
      by_cases hlen : ref < heap.length
      · simp only [rowOf, List.getD_eq_getElem?_getD,
          List.getElem?_set_self hlen]
        rfl
      · rw [List.set_eq_of_length_le (Nat.le_of_not_lt hlen)]
        have hempty : rowOf heap ref = [] := by
          simp only [rowOf, List.getD_eq_getElem?_getD]
          rw [List.getElem?_eq_none (Nat.le_of_not_lt hlen)]
          rfl
        rw [hempty]
        rfl
    · have hne : r ≠ ref := by
        rintro rfl
        exact (List.nodup_cons.mp hnd).1 hmem
      rw [adjustAll_cons, ih _ (List.nodup_cons.mp hnd).2 hmem]
      congr 1
      simp only [rowOf, List.getD_eq_getElem?_getD, List.getElem?_set_ne hne]

/-- C7: for every row surviving cleaning whose altitude cell is present, the
cleaned dataset's row reads, as a number, `parseFloat(cell) - baseAltitude`
where `baseAltitude = parseFloat(input) || 571`; in particular an empty
base-altitude input parses to NaN and falls back to the fixed reference
value 571. -/
theorem cleaned_altitude_correction (heap : List Row) (orig : List ℕ)
    (baseRaw : String) (ref : ℕ) (cell : JSVal)
    (h1 : ref ∈ (cleanData heap orig baseRaw).cleanedData)
    (h2 : (rowOf heap ref).get "Altitud_m" = some cell) :
    (rowOf (cleanData heap orig baseRaw).heap ref).get "Altitud_m"
        = some (.num ((parseFloatVal cell).sub (jsOr (parseFloat baseRaw) 571)))
      ∧ jsOr (parseFloat "") 571 = .fin 571 := by
  constructor
  · have hnd := cleanedData_nodup heap orig baseRaw
    have hheap : (cleanData heap orig baseRaw).heap
        = adjustAll (jsOr (parseFloat baseRaw) 571) heap
            (cleanData heap orig baseRaw).cleanedData := rfl
    rw [hheap, adjustAll_rowOf_mem _ _ _ hnd ref h1]
    simp only [adjustAltitude, h2]
    exact Row.get_set_self _ _ _
  · decide

/-- A one-row dataset whose altitude cell is the string `"600"` (the
altitude-correction scenario input). -/
def altHeap : List Row :=
  [[("Tiempo_ms", .str "0"), ("Altitud_m", .str "600")]]

/-- The claim's concrete instance: base-altitude input "571", raw altitude
"600"; the cleaned row reads 29. -/
theorem cleaned_altitude_correction_witness :
    (0 : ℕ) ∈ (cleanData altHeap [0] "571").cleanedData ∧
      (rowOf altHeap 0).get "Altitud_m" = some (.str "600") ∧
      (rowOf (cleanData altHeap [0] "571").heap 0).get "Altitud_m"
        = some (.num (.fin 29)) :=
  ⟨by decide, by decide, by
    have h := (cleaned_altitude_correction altHeap [0] "571" 0 (.str "600")
      (by decide) (by decide)).1
    have hv : JSNum.sub (parseFloatVal (.str "600"))
        (jsOr (parseFloat "571") 571) = .fin 29 := by decide
    rw [h, hv]⟩

/-! Section: Statistics theorems -/

theorem foldl_sq_nonneg (mean : ℚ) (l : List ℚ) (a : ℚ) (ha : 0 ≤ a) :
    0 ≤ l.foldl (fun acc val => acc + (val - mean) ^ 2) a := by
  induction l generalizing a with
  | nil => exact ha
  | cons x rest ih => exact ih _ (add_nonneg ha (sq_nonneg _))

/-- C9: on every non-empty sequence the descriptive statistics satisfy
`min ≤ median ≤ max` and `stdDev = sqrt(variance) ≥ 0`; the median is an
element of the input (the lower-middle element at index `⌊n/2⌋` of the
ascending sort, not an averaged midpoint) and the population variance
(division by `n`) is non-negative. -/
theorem calculateStats_ordered (values : List ℚ) (h : values ≠ []) :
    (calculateStats values).min ≤ (calculateStats values).median ∧
      (calculateStats values).median ≤ (calculateStats values).max ∧
      (calculateStats values).median ∈ values ∧
      0 ≤ (calculateStats values).variance ∧
      (0 : ℝ) ≤ Real.sqrt ((calculateStats values).variance : ℝ) := by
  have hlen : (values.insertionSort (· ≤ ·)).length = values.length :=
    List.length_insertionSort _ _
  have hpos : 0 < values.length := List.length_pos.mpr h
  have hpos' : 0 < (values.insertionSort (· ≤ ·)).length := by omega
  have hsorted : List.Sorted (· ≤ ·) (values.insertionSort (· ≤ ·)) :=
    List.sorted_insertionSort _ _
  have h0 : (0 : ℕ) < (values.insertionSort (· ≤ ·)).length := hpos'
  have hm : (values.insertionSort (· ≤ ·)).length / 2
      < (values.insertionSort (· ≤ ·)).length := by omega
  have hl : (values.insertionSort (· ≤ ·)).length - 1
      < (values.insertionSort (· ≤ ·)).length := by omega
  have hmin : (calculateStats values).min
      = (values.insertionSort (· ≤ ·)).get ⟨0, h0⟩ := by
    simp only [calculateStats]
    rw [List.getD_eq_getElem?_getD, List.getElem?_eq_getElem h0,
      Option.getD_some, List.get_eq_getElem]
  have hmed : (calculateStats values).median
      = (values.insertionSort (· ≤ ·)).get
          ⟨(values.insertionSort (· ≤ ·)).length / 2, hm⟩ := by
    simp only [calculateStats]
    rw [List.getD_eq_getElem?_getD, List.getElem?_eq_getElem hm,
      Option.getD_some, List.get_eq_getElem]
  have hmax : (calculateStats values).max
      = (values.insertionSort (· ≤ ·)).get
          ⟨(values.insertionSort (· ≤ ·)).length - 1, hl⟩ := by
    simp only [calculateStats]
    rw [List.getD_eq_getElem?_getD, List.getElem?_eq_getElem hl,
      Option.getD_some, List.get_eq_getElem]
  have hvar : (calculateStats values).variance
      = (values.foldl (fun acc val =>
          acc + (val - (values.foldl (· + ·) 0) / (values.length : ℚ)) ^ 2) 0)
        / (values.length : ℚ) := by
    simp [calculateStats]
  refine ⟨?_, ?_, ?_, ?_, Real.sqrt_nonneg _⟩
  · rw [hmin, hmed]
    exact hsorted.rel_get_of_le (by simp)
  · rw [hmed, hmax]
    exact hsorted.rel_get_of_le (by simp [Fin.mk_le_mk]; omega)
  · rw [hmed]
    exact (List.perm_insertionSort (· ≤ ·) values).subset (List.get_mem _ _ _)
  · rw [hvar]
    exact div_nonneg (foldl_sq_nonneg _ _ _ le_rfl) (Nat.cast_nonneg _)

theorem calculateStats_ordered_witness :
    ([3, 1, 2] : List ℚ) ≠ [] ∧
      ((calculateStats [3, 1, 2]).min ≤ (calculateStats [3, 1, 2]).median ∧
        (calculateStats [3, 1, 2]).median ≤ (calculateStats [3, 1, 2]).max ∧
        (calculateStats [3, 1, 2]).median ∈ ([3, 1, 2] : List ℚ) ∧
        0 ≤ (calculateStats [3, 1, 2]).variance ∧
        (0 : ℝ) ≤ Real.sqrt ((calculateStats [3, 1, 2]).variance : ℝ)) :=
  ⟨by simp, calculateStats_ordered [3, 1, 2] (by simp)⟩

/-! Section: Missing-time-key deduplication theorems -/

theorem dedupAux_mem_dups_of_seen (heap : List Row) (pairs : List (ℕ × ℕ))
    (seen : List (Option JSVal)) (i ref : ℕ) (hmem : (i, ref) ∈ pairs)
    (hseen : timeKey heap ref ∈ seen) :
    DupEntry.mk i (timeKey heap ref) ∈ (dedupAux heap pairs seen).2 := by
  induction pairs generalizing seen with
  | nil => cases hmem
  | cons pr rest ih =>
    obtain ⟨i0, ref0⟩ := pr
    by_cases h : timeKey heap ref0 ∈ seen
    · simp only [dedupAux, if_pos h]
      rcases List.mem_cons.mp hmem with heq | hmem'
      · obtain ⟨rfl, rfl⟩ := Prod.mk.injEq .. |>.mp heq
        exact List.mem_cons_self _ _
      · exact List.mem_cons_of_mem _ (ih seen hmem' hseen)
    · simp only [dedupAux, if_neg h]
      rcases List.mem_cons.mp hmem with heq | hmem'
      · obtain ⟨rfl, rfl⟩ := Prod.mk.injEq .. |>.mp heq
        exact absurd hseen h
      · exact ih _ hmem' (List.mem_cons_of_mem _ hseen)

theorem dedupAux_dup_reported (heap : List Row) (l₁ : List (ℕ × ℕ))
    (i ref j ref' : ℕ) (l₂ l₃ : List (ℕ × ℕ)) (seen : List (Option JSVal))
    (hkey : timeKey heap ref' = timeKey heap ref) :
    DupEntry.mk j (timeKey heap ref')
      ∈ (dedupAux heap (l₁ ++ (i, ref) :: (l₂ ++ (j, ref') :: l₃)) seen).2 := by
  induction l₁ generalizing seen with
  | nil =>
    show DupEntry.mk j (timeKey heap ref')
      ∈ (dedupAux heap ((i, ref) :: (l₂ ++ (j, ref') :: l₃)) seen).2
    by_cases h : timeKey heap ref ∈ seen
    · simp only [dedupAux, if_pos h]
      refine List.mem_cons_of_mem _ ?_
      exact dedupAux_mem_dups_of_seen heap _ seen j ref'
        (by simp) (by rw [hkey]; exact h)
    · simp only [dedupAux, if_neg h]
      exact dedupAux_mem_dups_of_seen heap _ _ j ref'
        (by simp) (by rw [hkey]; exact List.mem_cons_self _ _)
  | cons pr rest ih =>
    obtain ⟨i0, ref0⟩ := pr
    show DupEntry.mk j (timeKey heap ref')
      ∈ (dedupAux heap ((i0, ref0) :: (rest ++ (i, ref) :: (l₂ ++ (j, ref') :: l₃))) seen).2
    by_cases h : timeKey heap ref0 ∈ seen
    · simp only [dedupAux, if_pos h]
      exact List.mem_cons_of_mem _ (ih seen)
    · simp only [dedupAux, if_neg h]
      exact ih _

theorem dedupAux_first_kept (heap : List Row) (l₁ : List (ℕ × ℕ))
    (i ref : ℕ) (l₂ : List (ℕ × ℕ)) (seen : List (Option JSVal))
    (hseen : timeKey heap ref ∉ seen)
    (hbefore : ∀ p ∈ l₁, timeKey heap p.2 ≠ timeKey heap ref) :
    (i, ref) ∈ (dedupAux heap (l₁ ++ (i, ref) :: l₂) seen).1 := by
  induction l₁ generalizing seen with
  | nil =>
    simp only [List.nil_append, dedupAux, if_neg hseen]
    exact List.mem_cons_self _ _
  | cons pr rest ih =>
    obtain ⟨i0, ref0⟩ := pr
    simp only [List.cons_append]
    by_cases h : timeKey heap ref0 ∈ seen
    · simp only [dedupAux, if_pos h]
      exact ih seen hseen fun p hp => hbefore p (List.mem_cons_of_mem _ hp)
    · simp only [dedupAux, if_neg h]
      refine List.mem_cons_of_mem _ ?_
      refine ih _ ?_ fun p hp => hbefore p (List.mem_cons_of_mem _ hp)
      intro hc
      rcases List.mem_cons.mp hc with heq | hmem
      · exact hbefore (i0, ref0) (List.mem_cons_self _ _) heq.symm
      · exact hseen hmem

/-- The raw `Tiempo_ms` cell of the row at position `m` of the original
dataset (`none` = the field is absent). -/
def timeAt (heap : List Row) (orig : List ℕ) (m : ℕ) : Option JSVal :=
  (rowOf heap (orig.getD m 0)).get "Tiempo_ms"

/-- C10: rows lacking `Tiempo_ms` entirely share the single `Map` key
`undefined`: if position `i` holds the first row without a time field, that
row survives duplicate removal, and every later position `j` without a time
field is dropped and reported as a time duplicate with `time = undefined`. -/
theorem missing_time_shared_key (heap : List Row) (orig : List ℕ)
    (baseRaw : String) (i j : ℕ) (hij : i < j) (hj : j < orig.length)
    (hti : timeAt heap orig i = none) (htj : timeAt heap orig j = none)
    (hfirst : ∀ m, m < i → timeAt heap orig m ≠ none) :
    DupEntry.mk j none ∈ (cleanData heap orig baseRaw).duplicatesRemoved ∧
      (i, orig.getD i 0) ∈ (dedupPhase heap orig).1 := by
  have hi : i < orig.length := lt_trans hij hj
  have hiL : i < orig.enum.length := by simpa using hi
  have hjL : j < orig.enum.length := by simpa using hj
  have hgetI : orig.enum[i] = (i, orig[i]) := List.getElem_enum _ _ hiL
  have hgetJ : orig.enum[j] = (j, orig[j]) := List.getElem_enum _ _ hjL
  have hgetDI : orig.getD i 0 = orig[i] := List.getD_eq_getElem _ _ hi
  have hgetDJ : orig.getD j 0 = orig[j] := List.getD_eq_getElem _ _ hj
  have hkeyI : timeKey heap orig[i] = none := by
    have := hti
    rwa [timeAt, hgetDI] at this
  have hkeyJ : timeKey heap orig[j] = none := by
    have := htj
    rwa [timeAt, hgetDJ] at this
  have hmid : j - 1 - i < (orig.enum.drop (i + 1)).length := by
    simp only [List.length_drop, List.enum_length]
    omega
  have hsplit1 : orig.enum
      = orig.enum.take i ++ ((i, orig[i]) :: orig.enum.drop (i + 1)) := by
    conv_lhs => rw [← List.take_append_drop i orig.enum]
    rw [List.drop_eq_getElem_cons hiL, hgetI]
  have hdropJ : (orig.enum.drop (i + 1))[j - 1 - i] = (j, orig[j]) := by
    rw [List.getElem_drop]
    have : i + 1 + (j - 1 - i) = j := by omega
    simp only [this]
    exact hgetJ
  have hsplit2 : orig.enum.drop (i + 1)
      = (orig.enum.drop (i + 1)).take (j - 1 - i)
          ++ ((j, orig[j]) :: (orig.enum.drop (i + 1)).drop (j - 1 - i + 1)) := by
    conv_lhs =>
      rw [← List.take_append_drop (j - 1 - i) (orig.enum.drop (i + 1))]
    rw [List.drop_eq_getElem_cons hmid, hdropJ]
  have hLeq : orig.enum
      = orig.enum.take i ++ (i, orig[i])
          :: ((orig.enum.drop (i + 1)).take (j - 1 - i)
            ++ (j, orig[j]) :: (orig.enum.drop (i + 1)).drop (j - 1 - i + 1)) := by
    conv_lhs => rw [hsplit1, hsplit2]
  constructor
  · have hdup := dedupAux_dup_reported heap (orig.enum.take i) i orig[i] j
      orig[j] ((orig.enum.drop (i + 1)).take (j - 1 - i))
      ((orig.enum.drop (i + 1)).drop (j - 1 - i + 1)) []
      (by rw [hkeyI, hkeyJ])
    rw [hkeyJ] at hdup
    have hphase : (cleanData heap orig baseRaw).duplicatesRemoved
        = (dedupAux heap orig.enum []).2 := rfl
    rw [hphase, hLeq]
    exact hdup
  · have hbef : ∀ p ∈ orig.enum.take i,
        timeKey heap p.2 ≠ timeKey heap orig[i] := by
      intro p hp
      obtain ⟨m, hm, hpm⟩ := List.mem_take_iff_getElem.mp hp
      have hmi : m < i := lt_of_lt_of_le hm inf_le_left
      have hmo : m < orig.length := lt_trans hmi hi
      have hpe : p = (m, orig[m]) := by
        rw [← hpm]
        exact List.getElem_enum _ _ (by simpa using hmo)
      rw [hpe, hkeyI]
      have hne := hfirst m hmi
      rw [timeAt, List.getD_eq_getElem _ _ hmo] at hne
      exact hne
    have hkept := dedupAux_first_kept heap (orig.enum.take i) i orig[i]
      (orig.enum.drop (i + 1)) [] (by simp) hbef
    have hphase : (dedupPhase heap orig).1 = (dedupAux heap orig.enum []).1 := rfl
    rw [hphase, hgetDI, hsplit1]
    exact hkept

/-- Three rows, the first with a time field, the second and third without:
the second survives dedup as the first `undefined`-keyed row, the third is
reported as a duplicate with `time = undefined`. -/
def missHeap : List Row :=
  [[("Tiempo_ms", .str "0"), ("Temperatura_C", .str "20")],
   [("Temperatura_C", .str "21")],
   [("Temperatura_C", .str "22")]]

theorem missing_time_shared_key_witness :
    DupEntry.mk 2 none ∈ (cleanData missHeap [0, 1, 2] "571").duplicatesRemoved ∧
      ((1 : ℕ), (1 : ℕ)) ∈ (dedupPhase missHeap [0, 1, 2]).1 :=
  missing_time_shared_key missHeap [0, 1, 2] "571" 1 2 (by decide) (by decide)
    (by decide) (by decide) (by decide)

end Gaia
